import Mathlib

/-!
Shallow embedding of `mne/decoding/time_gen.py` (the `GeneralizationAcrossTime`
engine and its auxiliary functions `_sliding_window`, `_fit_slices`,
`_predict_time_loop`, `_predicter`, `_scorer`, `_format_data`).

Modelling conventions:
* physical times, data values and labels are exact rationals (`ℚ`);
* numpy arrays are nested lists (row-major), numpy fancy indexing is
  `selectIdx`, out-of-bounds indexing is an `indexError`;
* Python exceptions are the `PyErr` type, fallible code runs in
  `Except PyErr`;
* the scikit-learn estimator is the external capability of the spec: an
  abstract record of `predict` / `decision_function` / `predict_proba`
  functions, and fitting is an abstract function supplied as a parameter;
* Python 2 `range(a, b)` objects (which are plain lists) are index lists.
-/

set_option linter.unusedVariables false

/-- Python exceptions that the embedded code can raise.  `nonterm` marks a
loop of the source that provably never terminates. -/
inductive PyErr where
  | assertionError
  | indexError
  | valueError
  | nameError
  | attributeError
  | runtimeError
  | typeError
  | keyError
  | nonterm
  deriving DecidableEq, Repr

/-- Indexing `l[i]`, raising IndexError when out of bounds. -/
def nthE {α : Type} (l : List α) (i : ℕ) : Except PyErr α :=
  match l.get? i with
  | some a => .ok a
  | none => .error .indexError

/-- numpy fancy indexing `l[idxs]`: every index must be in bounds. -/
def selectIdx {α : Type} (l : List α) (idxs : List ℕ) : Except PyErr (List α) :=
  idxs.mapM (nthE l)

/-- np.unique: the distinct elements in ascending order. -/
def npUnique {α : Type} [LinearOrder α] (xs : List α) : List α :=
  xs.dedup.insertionSort (fun a b => a ≤ b)

/-- scipy.stats.mode along the fold axis: scipy iterates over the ascending
distinct values and keeps the first value that strictly increases the
occurrence count, starting from a zero array with count 0; the result is the
smallest value of maximal multiplicity (and 0 on empty input). -/
def modeStep (xs : List ℚ) (best : ℚ × ℕ) (v : ℚ) : ℚ × ℕ :=
  if best.2 < xs.count v then (v, xs.count v) else best

def scipyMode (xs : List ℚ) : ℚ :=
  ((npUnique xs).foldl (modeStep xs) ((0 : ℚ), (0 : ℕ))).1

/-- Options dictionary accepted by `_sliding_window`; a `none` field is an
absent key. -/
structure SWOptions where
  slices : Option (List (List ℕ)) := none
  start : Option ℚ := none
  stop : Option ℚ := none
  step : Option ℚ := none
  length : Option ℚ := none
  deriving DecidableEq, Repr

/-- find_time of `_sliding_window`: `np.nonzero(times >= t)[0][0]`, the first
index whose time is at least `t`; when no time qualifies the source prints a
message and executes a bare `raise` with no active exception, which is itself
a runtime error. -/
def findTime (times : List ℚ) (t : ℚ) : Except PyErr ℕ :=
  match times.findIdx? (fun x => t ≤ x) with
  | some i => .ok i
  | none => .error .runtimeError

/-- Python 2 `range(a, a + len)` as the index list it denotes (empty when
`len` is not positive). -/
def pyRange (a : ℕ) (len : ℤ) : List ℕ :=
  List.range' a len.toNat

/-- The while loop of `_sliding_window`: starting from the last window start,
keep appending a window advanced by `step` while
`time_pick[-1][0] + step <= stop - length + 1`.  `fuel` bounds the number of
iterations; the caller passes enough fuel for every terminating run. -/
def swLoop (stopIdx len step : ℤ) : ℕ → ℤ → List (List ℕ)
  | 0, _ => []
  | fuel + 1, lastStart =>
    if lastStart + step ≤ stopIdx - len + 1 then
      pyRange (lastStart + step).toNat len ::
        swLoop stopIdx len step fuel (lastStart + step)
    else []

/-- Embedding of `_sliding_window(times, options)` of time_gen.py.  Returns the produced
training slices together with the updated options dictionary (the source
mutates `options` in place to fill in defaulted keys).  The slices bypass is
taken only when the `slices` key and all four of `start`, `stop`, `step`,
`length` are present, exactly as in the source.  `int(round(.))` is
Mathlib's `round`, which agrees with the source for the nonnegative
durations at issue. -/
def slidingWindow (times : List ℚ) (o : SWOptions) :
    Except PyErr (List (List ℕ) × SWOptions) :=
  match times with
  | [] => .error .indexError
  | t0 :: ts =>
    let tlast := (t0 :: ts).getLast (by simp)
    let freq := (tlast - t0) / (((t0 :: ts).length : ℚ))
    if o.slices.isSome ∧ o.start.isSome ∧ o.stop.isSome ∧
        o.step.isSome ∧ o.length.isSome then
      .ok (o.slices.getD [], o)
    else
      let startT := o.start.getD t0
      let stopT := o.stop.getD tlast
      let stepT := o.step.getD freq
      let lenT := o.length.getD freq
      let o1 : SWOptions :=
        { o with start := some startT, stop := some stopT,
                 step := some stepT, length := some lenT }
      do
        let s ← findTime (t0 :: ts) startT
        let e ← findTime (t0 :: ts) stopT
        let stepI : ℤ := round (stepT / freq)
        let lenI : ℤ := round (lenT / freq)
        let first := pyRange s lenI
        if first.isEmpty then
          -- the guard `time_pick[-1][0]` indexes an empty range
          .error .indexError
        else if stepI ≤ 0 then
          -- once the guard holds with a nonpositive step it holds forever
          if (s : ℤ) + stepI ≤ (e : ℤ) - lenI + 1 then .error .nonterm
          else .ok ([first], o1)
        else
          .ok (first ::
            swLoop (e : ℤ) lenI stepI (((e : ℤ) - lenI + 1 - (s : ℤ)).toNat + 1)
              (s : ℤ), o1)



instance {ε α : Type} [DecidableEq ε] [DecidableEq α] : DecidableEq (Except ε α) :=
  fun x y =>
    match x, y with
    | .ok a, .ok b =>
      if h : a = b then .isTrue (congrArg Except.ok h)
      else .isFalse (fun hc => h (Except.ok.inj hc))
    | .error e, .error f =>
      if h : e = f then .isTrue (congrArg Except.error h)
      else .isFalse (fun hc => h (Except.error.inj hc))
    | .ok _, .error _ => .isFalse (fun hc => Except.noConfusion hc)
    | .error _, .ok _ => .isFalse (fun hc => Except.noConfusion hc)

/-- External scikit-learn estimator capability (spec section 6): per-trial
prediction functions of a fitted classifier.  `predict` yields one value per
trial; `decision_function` and `predict_proba` yield one row per trial. -/
structure Clf (τ : Type) where
  predict : τ → ℚ
  decision_function : τ → List ℚ
  predict_proba : τ → List ℚ

/-- The predict_type argument of the source: 'predict', 'distance', 'proba'. -/
inductive PredictType where
  | predict
  | distance
  | proba
  deriving DecidableEq, Repr

/-- Row of values that one classifier contributes for one trial: the single
predicted value for 'predict', otherwise the decision_function or
predict_proba row. -/
def predRow {τ : Type} (e : Clf τ) (pt : PredictType) (x : τ) : List ℚ :=
  match pt with
  | .predict => [e.predict x]
  | .distance => e.decision_function x
  | .proba => e.predict_proba x

/-- np.mean across the fold axis of column `c`. -/
def foldMean {τ : Type} (ests : List (Clf τ)) (pt : PredictType)
    (x : τ) (c : ℕ) : ℚ :=
  (ests.map (fun e => (predRow e pt x).getD c 0)).sum / (ests.length : ℚ)

/-- Embedding of `_predicter(X, estimators, predict_type)` of time_gen.py.  The 3-D buffer
`y_pred[trial, class, fold]`, the fold loop, the aggregation across folds
(`scipy.stats.mode` keeps the fold axis with size 1, `np.mean` removes it),
the removal of the symmetric binary column and the final reshape are
reproduced branch by branch, tracking the array dimensions so that the shape
errors of the source are reproduced.  Broadcasting of degenerate widths is
not modelled: a row whose width differs from `n_class` is a ValueError. -/
def predicter {τ : Type} (X : List τ) (estimators : List (Clf τ))
    (pt : PredictType) : Except PyErr (List (List ℚ)) :=
  match estimators with
  | [] =>
    -- `for fold, clf in enumerate([])` binds nothing: with 'predict' the
    -- later `if fold > 0` reads an unbound name, otherwise `estimators[0]`
    -- already fails while probing n_class
    (match pt with
     | .predict => .error .nameError
     | _ => .error .indexError)
  | e0 :: erest =>
    let nClassE : Except PyErr ℕ :=
      match pt with
      | .predict => .ok 1
      | _ =>
        match X with
        | [] => .error .indexError   -- X[0, :] on an empty X
        | x0 :: _ => .ok (predRow e0 pt x0).length
    do
      let nClass ← nClassE
      let ests := e0 :: erest
      if pt ≠ .predict ∧
          ¬ (ests.all fun e => X.all fun x => (predRow e pt x).length == nClass) then
        -- `y_pred[:, :, fold] = ...` with a mismatched width
        .error .valueError
      else if ests.length = 1 then
        -- fold == 0 at the end of the loop: no aggregation, fold axis size 1
        if pt ≠ .predict ∧ nClass = 2 then
          -- y_pred[:, 1, :] keeps the positive-class column of the 3-D array
          .ok (X.map fun x => [(predRow e0 pt x).getD 1 0])
        else
          .ok (X.map fun x => predRow e0 pt x)
      else
        match pt with
        | .predict =>
          -- mode(y_pred, axis=2) keeps the fold axis; reshape flattens it
          .ok (X.map fun x => [scipyMode (ests.map fun e => e.predict x)])
        | _ =>
          -- np.mean(y_pred, axis=2) removes the fold axis: y_pred is now 2-D
          if nClass = 2 then
            -- y_pred[:, 1, :] over-indexes the 2-D array
            .error .indexError
          else
            .ok (X.map fun x => (List.range nClass).map fun c => foldMean ests pt x c)

def estA : Clf ℕ :=
  { predict := fun x => (x : ℚ)
    decision_function := fun x => [(x : ℚ), 1]
    predict_proba := fun x => [(x : ℚ), 3] }

def estB : Clf ℕ :=
  { predict := fun x => (x : ℚ) + 1
    decision_function := fun x => [(x : ℚ), 2]
    predict_proba := fun x => [(x : ℚ), 5] }

/-- numpy row assignment `m[idxs, :] = rows`. -/
def assignRows (m : List (List ℚ)) (idxs : List ℕ) (rows : List (List ℚ)) :
    List (List ℚ) :=
  (idxs.zip rows).foldl (fun acc p => acc.set p.1 p.2) m

/-- Fold loop of `_predict_time_loop` in matched mode
(`for k, [train, test] in enumerate(cv)`): fold k predicts the trials of its
own test-index set with `_predicter(Xtrain[test, :], [estimator[k]], ...)`
and writes the rows into the prediction matrix at those indices. -/
def matchedLoop {τ : Type} (X : List τ) (estimator : List (Clf τ))
    (pt : PredictType) :
    List (ℕ × (List ℕ × List ℕ)) → List (List ℚ) → Except PyErr (List (List ℚ))
  | [], m => .ok m
  | (k, (_train, te)) :: rest, m => do
    let xte ← selectIdx X te
    let e ← nthE estimator k
    let pk ← predicter xte [e] pt
    matchedLoop X estimator pt rest (assignRows m te pk)

/-- Matched-mode body of `_predict_time_loop` for one testing slice.  At
fold 0 the source first runs `_predicter` once to learn the output width,
allocates `np.empty((n_trial, width))` — modelled as a matrix filled with an
arbitrary `junk` value standing for uninitialised memory — and assigns the
fold-0 rows; the unconditional assignment inside the loop then recomputes
every fold's rows (fold 0 twice, with the same result) and overwrites the
rows of each fold's test indices. -/
def predictTimeSliceMatched {τ : Type} (X : List τ) (estimator : List (Clf τ))
    (cv : List (List ℕ × List ℕ)) (pt : PredictType) (junk : ℚ) :
    Except PyErr (List (List ℚ)) :=
  match cv with
  | [] => .ok []    -- the initial `y_pred[t] = []` is never filled in
  | (_tr0, te0) :: _ => do
    let xte0 ← selectIdx X te0
    let e0 ← nthE estimator 0
    let p0 ← predicter xte0 [e0] pt
    let width := (p0.headD []).length
    let init := List.replicate X.length (List.replicate width junk)
    matchedLoop X estimator pt cv.enum (assignRows init te0 p0)

/-- Slicing `X[:, :, indices]` followed by the flattening reshape of the source: each
trial's (feature × window) block becomes a single feature-major row; an
out-of-bounds time index raises IndexError like numpy fancy indexing. -/
def sliceFlatten (X : List (List (List ℚ))) (idxs : List ℕ) :
    Except PyErr (List (List ℚ)) :=
  X.mapM (fun trial => do
    let sel ← trial.mapM (fun feat => selectIdx feat idxs)
    pure sel.flatten)

/-- Embedding of `_predict_time_loop(X, estimator, cv, slices, independent,
predict_type)` of time_gen.py: one prediction matrix per testing slice.  Matched mode
(`independent=False`) routes each trial to its own fold's classifier;
independent mode predicts every trial with every fold's classifier through
`_predicter`. -/
def predictTimeLoop (X : List (List (List ℚ))) (estimator : List (Clf (List ℚ)))
    (cv : List (List ℕ × List ℕ)) (slices : List (List ℕ))
    (independent : Bool) (pt : PredictType) (junk : ℚ) :
    Except PyErr (List (List (List ℚ))) :=
  slices.mapM (fun idxs => do
    let Xtrain ← sliceFlatten X idxs
    if independent = false then
      predictTimeSliceMatched Xtrain estimator cv pt junk
    else
      predicter Xtrain estimator pt)

/-- Scorer function capability (spec section 6): ground truth and a
prediction column to a scalar; may raise. -/
def ScorerFn : Type := List ℚ → List ℚ → Except PyErr ℚ

/-- numpy `y == c`: boolean arrays behave as 0/1 values downstream. -/
def binarize (y : List ℚ) (c : ℚ) : List ℚ :=
  y.map (fun v => if v = c then 1 else 0)

/-- Embedding of `_scorer(y, y_pred, scorer)` of time_gen.py.  With a single prediction
column (the (n, 1) array is passed to the scorer; modelled as the flat
column) the scorer is tried as-is and, on any exception, retried with `y`
binarised against the largest class; otherwise the scores of the per-class
columns (classes in np.unique order) are averaged, and a missing column is
an IndexError. -/
def scorerCell (y : List ℚ) (ypred : List (List ℚ)) (scorer : ScorerFn) :
    Except PyErr ℚ :=
  let classes := npUnique y
  if (ypred.headD []).length = 1 then
    match scorer y (ypred.map (fun r => r.headD 0)) with
    | .ok s => .ok s
    | .error _ =>
      scorer (binarize y (classes.getLastD 0)) (ypred.map (fun r => r.headD 0))
  else do
    let total ← classes.enum.foldlM (fun acc p => do
        let col ← ypred.mapM (fun r => nthE r p.1)
        let s ← scorer (binarize y p.2) col
        pure (acc + s)) (0 : ℚ)
    .ok (total / (classes.length : ℚ))

/-- In-place renumbering `t_slice[t_slice == values[ii]] = indices[ii]` of
`_fit_slices`, executed sequentially for ii = 0, 1, .... -/
def renumber (values : List ℕ) (ts : List ℕ) : List ℕ :=
  (List.range values.length).foldl
    (fun cur ii => cur.map (fun v => if v = values.getD ii 0 then ii else v)) ts

/-- External fitting capability: `clone(clf).fit(Xrows, yrows)` producing a
fitted classifier of type `κ` or raising (scikit-learn raises a ValueError
on an empty training set). -/
def FitFn (κ : Type) : Type := List (List ℚ) → List ℚ → Except PyErr κ

/-- Fold loop of `_fit_slices`: one cloned classifier fit per fold on the
fold's training rows.  The second component counts the classifier fits that
completed, making the amount of fitting work done before an error
observable. -/
def fitFolds {κ : Type} (fitF : FitFn κ) (X : List (List ℚ)) (y : List ℚ) :
    List (List ℕ × List ℕ) → ℕ → Except PyErr (List κ) × ℕ
  | [], done => (.ok [], done)
  | (train, _te) :: rest, done =>
    match (do
        let xtr ← selectIdx X train
        let ytr ← selectIdx y train
        fitF xtr ytr) with
    | .error err => (.error err, done)
    | .ok est =>
      match fitFolds fitF X y rest (done + 1) with
      | (.ok ests, done2) => (.ok (est :: ests), done2)
      | (.error err, done2) => (.error err, done2)

/-- Slice loop of `_fit_slices`: renumber each training slice relative to
`Xchunk`, slice and flatten the data, then fit one classifier per fold. -/
def fitSlicesGo {κ : Type} (fitF : FitFn κ) (Xchunk : List (List (List ℚ)))
    (y : List ℚ) (values : List ℕ) (cv : List (List ℕ × List ℕ)) :
    List (List ℕ) → ℕ → Except PyErr (List (List κ)) × ℕ
  | [], done => (.ok [], done)
  | ts :: rest, done =>
    match sliceFlatten Xchunk (renumber values ts) with
    | .error err => (.error err, done)
    | .ok Xf =>
      match fitFolds fitF Xf y cv done with
      | (.error err, done2) => (.error err, done2)
      | (.ok ests, done2) =>
        match fitSlicesGo fitF Xchunk y values cv rest done2 with
        | (.ok grids, done3) => (.ok (ests :: grids), done3)
        | (.error err, done3) => (.error err, done3)

/-- Embedding of `_fit_slices(clf, Xchunk, y, slices, cv)` of time_gen.py, with the
translation table `values = np.unique(np.concatenate(slices))` computed once
up front; paired with the count of classifier fits performed. -/
def fitSlices {κ : Type} (fitF : FitFn κ) (Xchunk : List (List (List ℚ)))
    (y : List ℚ) (slices : List (List ℕ)) (cv : List (List ℕ × List ℕ)) :
    Except PyErr (List (List κ)) × ℕ :=
  fitSlicesGo fitF Xchunk y (npUnique slices.flatten) cv slices 0

/-- Trial dataset capability (spec section 6): the 3-D data (one entry per
trial: channel × time sample), the per-trial event codes (third column of
`epochs.events`) and the time axis. -/
structure Epochs where
  data : List (List (List ℚ))
  events : List ℚ
  times : List ℚ

/-- Embedding of `_format_data(epochs, y, picks)` of time_gen.py: take
`y = epochs.events[:, 2]` when no y is given, select the picked channels and
assert that the trial counts of X and y agree.  A `picks` of `None` (possible
when predict runs before any fit) indexes as `[:, None, :]`, which only
inserts an axis and keeps every trial; it is modelled by keeping the data
unchanged. -/
def formatData (ep : Epochs) (y? : Option (List ℚ)) (picks : Option (List ℕ)) :
    Except PyErr (List (List (List ℚ)) × List ℚ) := do
  let y := y?.getD ep.events
  let X ← match picks with
    | none => .ok ep.data
    | some ps => ep.data.mapM (fun trial => selectIdx trial ps)
  if X.length = y.length then .ok (X, y) else .error .assertionError

/-- Slicing `X[:, :, idxs]` without the flattening reshape (used for the chunking in
fit). -/
def sliceCols (X : List (List (List ℚ))) (idxs : List ℕ) :
    Except PyErr (List (List (List ℚ))) :=
  X.mapM (fun trial => trial.mapM (fun feat => selectIdx feat idxs))

/-- Testing-times dictionary accepted by predict; a `none` field is an
absent key.  The `slices` key, when given, is one window list per training
window. -/
structure TTOptions where
  slices : Option (List (List (List ℕ))) := none
  start : Option ℚ := none
  stop : Option ℚ := none
  step : Option ℚ := none
  length : Option ℚ := none

/-- The test_times argument of predict: the string 'diagonal' or a
dictionary (`None` behaves as the empty dictionary). -/
inductive TestTimesArg where
  | diagonal
  | dict (o : TTOptions)

/-- Diagonal testing shortcut of `GeneralizationAcrossTime.predict`:
`test_times['slices'] = [[s] for s in self.train_times['slices']]`. -/
def diagonalTestSlices (trainSlices : List (List ℕ)) : List (List (List ℕ)) :=
  trainSlices.map (fun s => [s])

/-- The pair `np.transpose(zip(*packed), (1, 0, 2, 3))`: transpose the two leading
axes and transpose them back — the identity on the rectangular tensors the
source builds. -/
def zipTransposePair {α : Type} (packed : List (List α)) : List (List α) :=
  (packed.transpose).transpose

/-- State of a GeneralizationAcrossTime object.  Attributes that Python
creates by assignment during fit / predict / score are `Option` fields
(`none` = attribute not yet set); `cv` is the resolved fold list of the
external cross-validation splitter capability and `picks` the resolved
channel selection. -/
structure GAT where
  cv : List (List ℕ × List ℕ)
  picks : Option (List ℕ) := none
  train_times : SWOptions := {}
  y_train : Option (List ℚ) := none
  estimators : Option (List (List (Clf (List ℚ)))) := none
  train_slices : Option (List (List ℕ)) := none
  train_times_s : Option (List ℚ) := none
  independent : Option Bool := none
  y_true : Option (List ℚ) := none
  predict_type : Option PredictType := none
  test_slices : Option (List (List (List ℕ))) := none
  test_times_s : Option (List (List ℚ)) := none
  test_times_opts : Option TTOptions := none
  y_pred : Option (List (List (List (List ℚ)))) := none
  scorer : Option ScorerFn := none
  scores : Option (List (List ℚ)) := none

/-- Embedding of `GeneralizationAcrossTime.fit(epochs, y)` of time_gen.py with n_jobs = 1
(a single chunk).  Channel-selection and fold resolution are the external
capabilities of spec section 6: `g.picks` holds the resolved picks and
`g.cv` the resolved fold list; `fitF` is the external
`clone(clf).fit(...)` capability producing fitted classifiers. -/
def gatFit (fitF : FitFn (Clf (List ℚ))) (g : GAT) (ep : Epochs)
    (y? : Option (List ℚ)) : Except PyErr GAT := do
  let (X, y) ← formatData ep y? g.picks
  let (slices, tto) ← slidingWindow ep.times g.train_times
  -- train_times['s'] = epochs.times[[t[-1] for t in slices]]
  let ts ← slices.mapM (fun w => match w.getLast? with
      | none => .error .indexError
      | some last => nthE ep.times last)
  -- np.concatenate of an empty slice list raises
  if slices.isEmpty then .error .valueError
  else do
    -- Xchunk = X[:, :, np.unique(np.concatenate(train_slices_chunk))]
    let Xchunk ← sliceCols X (npUnique slices.flatten)
    match fitSlices fitF Xchunk y slices g.cv with
    | (.error err, _) => .error err
    | (.ok grid, _) =>
      .ok { g with y_train := some y,
                   train_times := tto,
                   train_slices := some slices,
                   train_times_s := some ts,
                   estimators := some grid }

/-- Embedding of `GeneralizationAcrossTime.predict(epochs, independent, test_times,
predict_type)` of time_gen.py with n_jobs = 1.  `junk` stands for the
contents of the uninitialised `np.empty` buffers of matched mode. -/
def gatPredict (g : GAT) (ep : Epochs) (independent : Bool)
    (tt : TestTimesArg) (pt : PredictType) (junk : ℚ) : Except PyErr GAT := do
  let (X, y) ← formatData ep none g.picks
  -- assert(hasattr(self, 'estimators'))
  match g.estimators with
  | none => .error .assertionError
  | some ests => do
    -- self.y_true = self.y_train if not independent else y
    let yTrue ← (if independent = false then
        match g.y_train with
        | none => .error .attributeError
        | some yt => .ok yt
      else .ok y)
    let trainSlices ← (match g.train_slices with
      | none => .error .keyError   -- self.train_times['slices'] not set
      | some s => .ok s)
    -- resolve test_times['slices']
    let ttoF ← (match tt with
      | .diagonal => .ok { slices := some (diagonalTestSlices trainSlices) : TTOptions }
      | .dict o =>
        if o.slices.isSome then .ok o
        else match g.train_times.length with
          | none => .error .keyError  -- self.train_times['length'] not set
          | some lenT =>
            -- the testing window length is forced to the training length;
            -- the source calls _sliding_window once per training window with
            -- the same (mutated) dictionary, so every call returns the same
            -- windows: modelled as one call replicated per training window
            if trainSlices.isEmpty then
              .ok { o with length := some lenT, slices := some [] }
            else do
              let (ws, o3) ← slidingWindow ep.times
                { slices := none, start := o.start, stop := o.stop,
                  step := o.step, length := some lenT }
              .ok { slices := some (List.replicate trainSlices.length ws),
                    start := o3.start, stop := o3.stop, step := o3.step,
                    length := o3.length })
    let slicesPerTrain := ttoF.slices.getD []
    -- test_times['s'] = [[times[t_test[-1]] for t_test in row] for row ...]
    let tts ← slicesPerTrain.mapM (fun row => row.mapM (fun w =>
        match w.getLast? with
        | none => .error .indexError
        | some last => nthE ep.times last))
    -- one `_predict_time_loop` call per training window
    let packed ← slicesPerTrain.enum.mapM (fun p => do
        let est ← nthE ests p.1
        predictTimeLoop X est g.cv p.2 independent pt junk)
    .ok { g with independent := some independent,
                 y_true := some yTrue,
                 predict_type := some pt,
                 test_slices := some slicesPerTrain,
                 test_times_s := some tts,
                 test_times_opts := some ttoF,
                 y_pred := some (zipTransposePair packed) }

/-- sklearn.metrics.accuracy_score capability (external): the fraction of
trials whose prediction equals the truth. -/
def accuracyScore : ScorerFn := fun yt yp =>
  if yt.length = yp.length then
    .ok (((yt.zip yp).map (fun p => if p.1 = p.2 then (1 : ℚ) else 0)).sum /
      (yt.length : ℚ))
  else .error .valueError

/-- sklearn.metrics.roc_auc_score capability (external), modelled by the
rank-statistic definition of the area under the ROC curve with the largest
label as the positive class; it raises unless the truth holds exactly two
distinct values. -/
def rocAucScore : ScorerFn := fun yt yp =>
  if yt.length ≠ yp.length then .error .valueError
  else if (npUnique yt).length ≠ 2 then .error .valueError
  else
    let pairs := yt.zip yp
    let mx := (npUnique yt).getLastD 0
    let posS := (pairs.filter (fun p => p.1 = mx)).map Prod.snd
    let negS := (pairs.filter (fun p => p.1 ≠ mx)).map Prod.snd
    .ok ((posS.map (fun sp => (negS.map (fun sn =>
        if sn < sp then (1 : ℚ) else if sn = sp then 1/2 else 0)).sum)).sum /
      ((posS.length : ℚ) * (negS.length : ℚ)))

/-- Embedding of `GeneralizationAcrossTime.score(epochs, y, scorer, independent,
test_times, predict_type)` of time_gen.py with n_jobs = 1: run predict,
resolve the truth labels (`y = self.y_true` when no y is passed), resolve
the default scorer and apply `_scorer` to every (train window, test window)
cell. -/
def gatScore (g : GAT) (ep : Epochs) (y? : Option (List ℚ))
    (scorer? : Option ScorerFn) (independent : Bool) (tt : TestTimesArg)
    (pt : PredictType) (junk : ℚ) : Except PyErr GAT := do
  let g1 ← gatPredict g ep independent tt pt junk
  let y := y?.getD (g1.y_true.getD [])
  let scorer := scorer?.getD
    (if pt = .predict then accuracyScore else rocAucScore)
  let tslices ← (match g1.test_slices with
    | none => .error .keyError
    | some s => .ok s)
  let ypred ← (match g1.y_pred with
    | none => .error .attributeError
    | some s => .ok s)
  let scores ← tslices.enum.mapM (fun p => do
      let row ← nthE ypred p.1
      (List.range p.2.length).mapM (fun t => do
        let cell ← nthE row t
        scorerCell y cell scorer))
  .ok { g1 with y_true := some y, scorer := some scorer, scores := some scores }

/-! ### Helper lemmas -/

theorem exceptBind_ok {ε α β : Type} (x : Except ε α) (f : α → Except ε β)
    (b : β) : x >>= f = .ok b ↔ ∃ a, x = .ok a ∧ f a = .ok b := by
  cases x <;> simp [Bind.bind, Except.bind]

theorem mapM_ok_get {α β : Type} (f : α → Except PyErr β) :
    ∀ (L : List α) (out : List β), L.mapM f = .ok out →
      out.length = L.length ∧
      ∀ j a, L.get? j = some a → ∃ b, f a = .ok b ∧ out.get? j = some b := by
  intro L
  induction L with
  | nil =>
    intro out h
    rw [← List.mapM'_eq_mapM] at h
    simp only [List.mapM'] at h
    have hnil : ([] : List β) = out := by simpa [pure, Except.pure] using h
    subst hnil
    exact ⟨rfl, fun j a ha => by simp [List.get?] at ha⟩
  | cons hd tl ih =>
    intro out h
    rw [← List.mapM'_eq_mapM] at h
    simp only [List.mapM'] at h
    rw [exceptBind_ok] at h
    obtain ⟨b, hb, h⟩ := h
    rw [exceptBind_ok] at h
    obtain ⟨bs, hbs, hout⟩ := h
    rw [List.mapM'_eq_mapM] at hbs
    have hout2 : b :: bs = out := by simpa [pure, Except.pure] using hout
    subst hout2
    obtain ⟨hlen, hget⟩ := ih bs hbs
    refine ⟨by simp [hlen], ?_⟩
    intro j a ha
    cases j with
    | zero =>
      rw [List.get?_cons_zero] at ha
      obtain rfl := Option.some.inj ha
      exact ⟨b, hb, rfl⟩
    | succ j =>
      rw [List.get?_cons_succ] at ha
      obtain ⟨c, hc, hoc⟩ := hget j a ha
      exact ⟨c, hc, by rw [List.get?_cons_succ]; exact hoc⟩

theorem selectIdx_ok_bound {α : Type} (l : List α) (idxs : List ℕ)
    (r : List α) (h : selectIdx l idxs = .ok r) :
    r.length = idxs.length ∧ ∀ j, j ∈ idxs → j < l.length := by
  obtain ⟨hlen, hget⟩ := mapM_ok_get (nthE l) idxs r h
  refine ⟨hlen, ?_⟩
  intro j hj
  obtain ⟨u, hu⟩ := List.get?_of_mem hj
  obtain ⟨b, hb, _⟩ := hget u j hu
  unfold nthE at hb
  cases hg : l.get? j with
  | none => rw [hg] at hb; exact absurd hb (by simp)
  | some v =>
    obtain ⟨hlt, _⟩ := List.get?_eq_some.mp hg
    exact hlt

/-- A successful `_predicter` call yields one row per trial. -/
theorem predicter_ok_length {τ : Type} (X : List τ) (ests : List (Clf τ))
    (pt : PredictType) (out : List (List ℚ))
    (h : predicter X ests pt = .ok out) : out.length = X.length := by
  unfold predicter at h
  cases ests with
  | nil => cases pt <;> simp at h
  | cons e0 erest =>
    simp only [exceptBind_ok] at h
    obtain ⟨n, hn, h⟩ := h
    repeat' split at h
    all_goals
      first
      | (have hinj := Except.ok.inj h; subst hinj; simp)
      | exact absurd h (by simp)

theorem nthE_ok_iff {α : Type} (l : List α) (i : ℕ) (a : α) :
    nthE l i = .ok a ↔ l.get? i = some a := by
  unfold nthE
  cases l.get? i <;> simp

theorem mem_enum_get? {α : Type} {q : ℕ × α} {l : List α} (h : q ∈ l.enum) :
    l.get? q.1 = some q.2 := by
  obtain ⟨j, hj⟩ := List.get?_of_mem h
  rw [List.get?_enum] at hj
  cases hg : l.get? j with
  | none => rw [hg] at hj; simp at hj
  | some a =>
    rw [hg] at hj
    simp only [Option.map_some'] at hj
    obtain rfl := Option.some.inj hj
    exact hg

theorem get?_mem_enum {α : Type} {l : List α} {k : ℕ} {a : α}
    (h : l.get? k = some a) : (k, a) ∈ l.enum := by
  have h2 : l.enum.get? k = some (k, a) := by
    rw [List.get?_enum, h]; rfl
  exact List.get?_mem h2

theorem setFold_length {α : Type} (ps : List (ℕ × α)) (m : List α) :
    (ps.foldl (fun acc p => acc.set p.1 p.2) m).length = m.length := by
  induction ps generalizing m with
  | nil => rfl
  | cons p ps ih => rw [List.foldl_cons, ih, List.length_set]

theorem setFold_get?_not_mem {α : Type} (ps : List (ℕ × α)) (m : List α)
    (i : ℕ) (h : ∀ p, p ∈ ps → p.1 ≠ i) :
    (ps.foldl (fun acc p => acc.set p.1 p.2) m).get? i = m.get? i := by
  induction ps generalizing m with
  | nil => rfl
  | cons p ps ih =>
    rw [List.foldl_cons, ih _ (fun q hq => h q (List.mem_cons_of_mem p hq)),
      List.get?_set_ne _ _ (h p (List.mem_cons_self p ps))]

theorem assignRows_length (m : List (List ℚ)) (idxs : List ℕ)
    (rows : List (List ℚ)) : (assignRows m idxs rows).length = m.length :=
  setFold_length _ m

theorem assignRows_get?_not_mem (m : List (List ℚ)) (idxs : List ℕ)
    (rows : List (List ℚ)) (i : ℕ) (hi : i ∉ idxs) :
    (assignRows m idxs rows).get? i = m.get? i := by
  apply setFold_get?_not_mem
  intro p hp hpi
  exact hi (hpi ▸ (List.of_mem_zip hp).1)

theorem assignRows_get?_at (m : List (List ℚ)) (idxs : List ℕ)
    (rows : List (List ℚ)) (i j : ℕ) (hnd : idxs.Nodup)
    (hj : idxs.get? j = some i) (hjr : j < rows.length) (him : i < m.length) :
    (assignRows m idxs rows).get? i = rows.get? j := by
  induction idxs generalizing m rows j with
  | nil => simp [List.get?] at hj
  | cons a idxs ih =>
    obtain ⟨ha, hnd2⟩ := List.nodup_cons.mp hnd
    cases rows with
    | nil => simp at hjr
    | cons r rows =>
      cases j with
      | zero =>
        rw [List.get?_cons_zero] at hj
        obtain rfl := Option.some.inj hj
        unfold assignRows
        rw [List.zip_cons_cons, List.foldl_cons]
        have hset : (m.set a r).get? a = some r :=
          List.get?_set_eq_of_lt r him
        rw [setFold_get?_not_mem _ _ _
          (fun p hp hpa => ha (by rw [← hpa]; exact (List.of_mem_zip hp).1)),
          hset]
        rfl
      | succ j =>
        rw [List.get?_cons_succ] at hj
        have hai : a ≠ i := fun he => ha (he ▸ List.get?_mem hj)
        unfold assignRows
        rw [List.zip_cons_cons, List.foldl_cons]
        have := ih (m.set a r) rows j hnd2 hj (Nat.lt_of_succ_lt_succ hjr)
          (by rw [List.length_set]; exact him)
        unfold assignRows at this
        rw [this]
        rfl

theorem matchedLoop_ok_length {τ : Type} (X : List τ) (est : List (Clf τ))
    (pt : PredictType) :
    ∀ (L : List (ℕ × (List ℕ × List ℕ))) (m m2 : List (List ℚ)),
      matchedLoop X est pt L m = .ok m2 → m2.length = m.length := by
  intro L
  induction L with
  | nil =>
    intro m m2 h
    simp only [matchedLoop] at h
    obtain rfl := Except.ok.inj h
    rfl
  | cons q L ih =>
    intro m m2 h
    obtain ⟨k, tr, te⟩ := q
    simp only [matchedLoop, exceptBind_ok] at h
    obtain ⟨xte, hxte, e, he, pk, hpk, hrest⟩ := h
    rw [ih _ _ hrest, assignRows_length]

theorem matchedLoop_ok_not_mem {τ : Type} (X : List τ) (est : List (Clf τ))
    (pt : PredictType) :
    ∀ (L : List (ℕ × (List ℕ × List ℕ))) (m m2 : List (List ℚ)) (i : ℕ),
      matchedLoop X est pt L m = .ok m2 →
      (∀ q, q ∈ L → i ∉ q.2.2) → m2.get? i = m.get? i := by
  intro L
  induction L with
  | nil =>
    intro m m2 i h _
    simp only [matchedLoop] at h
    obtain rfl := Except.ok.inj h
    rfl
  | cons q L ih =>
    intro m m2 i h hq
    obtain ⟨k, tr, te⟩ := q
    simp only [matchedLoop, exceptBind_ok] at h
    obtain ⟨xte, hxte, e, he, pk, hpk, hrest⟩ := h
    rw [ih _ _ _ hrest (fun p hp => hq p (List.mem_cons_of_mem _ hp)),
      assignRows_get?_not_mem _ _ _ _ (hq (k, (tr, te)) (List.mem_cons_self _ _))]

theorem matchedLoop_routes {τ : Type} (X : List τ) (est : List (Clf τ))
    (pt : PredictType) :
    ∀ (L : List (ℕ × (List ℕ × List ℕ))) (m m2 : List (List ℚ))
      (k : ℕ) (tr te : List ℕ) (i : ℕ),
      matchedLoop X est pt L m = .ok m2 →
      (k, (tr, te)) ∈ L →
      (L.map Prod.fst).Nodup →
      (∀ q, q ∈ L → q.1 ≠ k → i ∉ q.2.2) →
      te.Nodup → i ∈ te → m.length = X.length →
      ∃ e xte pk, est.get? k = some e ∧ selectIdx X te = .ok xte ∧
        predicter xte [e] pt = .ok pk ∧
        m2.get? i = pk.get? (te.indexOf i) := by
  intro L
  induction L with
  | nil =>
    intro m m2 k tr te i _ hmem
    simp at hmem
  | cons q L ih =>
    intro m m2 k tr te i hrun hmem hnd hdisj hte hi hml
    obtain ⟨k0, tr0, te0⟩ := q
    simp only [matchedLoop, exceptBind_ok] at hrun
    obtain ⟨xte0, hxte0, e0, he0, pk0, hpk0, hrest⟩ := hrun
    simp only [List.map_cons, List.nodup_cons] at hnd
    obtain ⟨hk0nd, hndL⟩ := hnd
    by_cases hk : k0 = k
    · subst hk
      rcases List.mem_cons.mp hmem with heq | htail
      · cases heq
        -- the head is fold k itself: its assignment fixes index i and no
        -- later fold touches it
        obtain ⟨hxlen, hxbound⟩ := selectIdx_ok_bound X te xte0 hxte0
        have hiX : i < X.length := hxbound i hi
        have hplen : pk0.length = te.length := by
          rw [predicter_ok_length xte0 [e0] pt pk0 hpk0, hxlen]
        have hpres := matchedLoop_ok_not_mem X est pt L _ _ i hrest
          (fun p hp hip => by
            exact hdisj p (List.mem_cons_of_mem _ hp)
              (fun hpk => hk0nd (hpk ▸ List.mem_map_of_mem Prod.fst hp)) hip)
        refine ⟨e0, xte0, pk0, (nthE_ok_iff est k0 e0).mp he0, hxte0, hpk0, ?_⟩
        rw [hpres]
        exact assignRows_get?_at m te pk0 i (te.indexOf i) hte
          (List.indexOf_get? hi)
          (by rw [hplen]; exact List.indexOf_lt_length.mpr hi)
          (by rw [hml]; exact hiX)
      · exact absurd (List.mem_map_of_mem Prod.fst htail) hk0nd
    · -- the head belongs to a different fold: it does not touch index i
      have htail : (k, (tr, te)) ∈ L := by
        rcases List.mem_cons.mp hmem with heq | htail
        · cases heq; exact absurd rfl hk
        · exact htail
      have hnotmem : i ∉ te0 :=
        hdisj (k0, (tr0, te0)) (List.mem_cons_self _ _) hk
      exact ih _ _ k tr te i hrest htail hndL
        (fun p hp hpk => hdisj p (List.mem_cons_of_mem _ hp) hpk) hte hi
        (by rw [assignRows_length, hml])

/-- Classifier over already-flattened rational trials used in concrete
instantiations: it predicts the trial's own value. -/
def estId : Clf ℚ :=
  { predict := fun x => x
    decision_function := fun x => [x, x]
    predict_proba := fun x => [x, x] }

/-- C1 (amended): in matched mode (`independent=False`) the prediction stored
for trial `i` at a testing slice is produced only by `_predicter` run with
the single classifier `estimator[k]` of the unique fold `k` whose test-index
set contains `i` (folds' test sets pairwise disjoint).  The second half of
the original claim is refuted by `c1_uncovered_trial_still_scored`: a trial
covered by no fold's test set keeps an arbitrary uninitialised value and
still participates in scoring. -/
theorem c1_matched_fold_routing {τ : Type} (X : List τ) (est : List (Clf τ))
    (cv : List (List ℕ × List ℕ)) (pt : PredictType) (junk : ℚ)
    (m : List (List ℚ)) (k : ℕ) (tr te : List ℕ) (i : ℕ)
    (hk : cv.get? k = some (tr, te))
    (hdisj : ∀ k1 k2 p1 p2, k1 ≠ k2 → cv.get? k1 = some p1 →
      cv.get? k2 = some p2 → ∀ j, j ∈ p1.2 → j ∉ p2.2)
    (hnd : te.Nodup) (hi : i ∈ te)
    (hrun : predictTimeSliceMatched X est cv pt junk = .ok m) :
    ∃ e xte pk, est.get? k = some e ∧ selectIdx X te = .ok xte ∧
      predicter xte [e] pt = .ok pk ∧
      m.get? i = pk.get? (te.indexOf i) := by
  unfold predictTimeSliceMatched at hrun
  cases cv with
  | nil => simp [List.get?] at hk
  | cons f0 rest =>
    obtain ⟨tr0, te0⟩ := f0
    simp only [exceptBind_ok] at hrun
    obtain ⟨xte0, hxte0, e0, he0, p0, hp0, hloop⟩ := hrun
    have hmem : (k, (tr, te)) ∈ ((tr0, te0) :: rest).enum := get?_mem_enum hk
    have hndf : ((((tr0, te0) :: rest).enum).map Prod.fst).Nodup :=
      List.nodup_enum_map_fst _
    have hdisj2 : ∀ q, q ∈ ((tr0, te0) :: rest).enum → q.1 ≠ k → i ∉ q.2.2 := by
      intro q hq hqk
      exact hdisj k q.1 (tr, te) q.2 (fun he => hqk he.symm) hk
        (mem_enum_get? hq) i hi
    have hlen : (assignRows (List.replicate X.length
        (List.replicate (p0.headD []).length junk)) te0 p0).length = X.length := by
      rw [assignRows_length, List.length_replicate]
    exact matchedLoop_routes X est pt _ _ m k tr te i hloop hmem hndf hdisj2
      hnd hi hlen

/-- Closed instantiation of `c1_matched_fold_routing`: two trials, one fold
testing trial 0 only, junk value 9. -/
theorem c1_matched_fold_routing_witness :
    ∃ e xte pk, [estId].get? 0 = some e ∧
      selectIdx [(10 : ℚ), 20] [0] = .ok xte ∧
      predicter xte [e] .predict = .ok pk ∧
      [[(10 : ℚ)], [9]].get? 0 = pk.get? ([0].indexOf 0) :=
  c1_matched_fold_routing [(10 : ℚ), 20] [estId] [([1], [0])] .predict 9
    [[10], [9]] 0 [1] [0] 0 rfl
    (by
      intro k1 k2 p1 p2 hne h1 h2
      cases k1 with
      | zero =>
        cases k2 with
        | zero => exact absurd rfl hne
        | succ n => simp [List.get?] at h2
      | succ n => simp [List.get?] at h1)
    (by simp) (by simp) rfl

/-- Refutation of C1's exclusion half: with a single fold testing only
trial 0, trial 1 receives no prediction — its row keeps whatever the
uninitialised `np.empty` buffer held — yet `_scorer` scores every trial, so
the accuracy of the run depends on the junk value (1 when the junk happens
to equal the label, 1/2 otherwise) instead of the uncovered trial being
excluded from scoring. -/
theorem c1_uncovered_trial_still_scored :
    predictTimeSliceMatched [(1 : ℚ), 5] [estId] [([1], [0])] .predict 1 =
      .ok [[1], [1]] ∧
    predictTimeSliceMatched [(1 : ℚ), 5] [estId] [([1], [0])] .predict 0 =
      .ok [[1], [0]] ∧
    scorerCell [1, 1] [[1], [1]] accuracyScore = .ok 1 ∧
    scorerCell [1, 1] [[1], [0]] accuracyScore = .ok (1 / 2) ∧
    (1 : ℚ) ≠ 1 / 2 := by
  refine ⟨rfl, rfl, ?_, ?_, by norm_num⟩
  · norm_num [scorerCell, npUnique, List.dedup, List.insertionSort,
      List.orderedInsert, accuracyScore, binarize]
  · norm_num [scorerCell, npUnique, List.dedup, List.insertionSort,
      List.orderedInsert, accuracyScore, binarize]

theorem exceptBind_ok_left {ε α β : Type} (a : α) (f : α → Except ε β) :
    ((.ok a : Except ε α) >>= f) = f a := rfl

theorem npUnique_mem {α : Type} [LinearOrder α] (xs : List α) (v : α) :
    v ∈ npUnique xs ↔ v ∈ xs := by
  unfold npUnique
  rw [List.mem_insertionSort, List.mem_dedup]

theorem modeFold_spec (xs : List ℚ) :
    ∀ (us : List ℚ) (acc : ℚ × ℕ),
      (∀ v, v ∈ us → v ∈ xs) →
      (acc.2 = 0 ∨ (acc.1 ∈ xs ∧ acc.2 = xs.count acc.1)) →
      ((us.foldl (modeStep xs) acc).2 = 0 ∨
        ((us.foldl (modeStep xs) acc).1 ∈ xs ∧
          (us.foldl (modeStep xs) acc).2 =
            xs.count (us.foldl (modeStep xs) acc).1)) ∧
      acc.2 ≤ (us.foldl (modeStep xs) acc).2 ∧
      (∀ v, v ∈ us → xs.count v ≤ (us.foldl (modeStep xs) acc).2) := by
  intro us
  induction us with
  | nil =>
    intro acc _ hacc
    exact ⟨hacc, le_refl _, fun v hv => absurd hv (List.not_mem_nil v)⟩
  | cons u us ih =>
    intro acc hmem hacc
    rw [List.foldl_cons]
    have hstep : (modeStep xs acc u).2 = 0 ∨
        ((modeStep xs acc u).1 ∈ xs ∧
          (modeStep xs acc u).2 = xs.count (modeStep xs acc u).1) := by
      by_cases hlt : acc.2 < xs.count u
      · simp [modeStep, if_pos hlt, hmem u (List.mem_cons_self u us)]
      · simp only [modeStep, if_neg hlt]
        exact hacc
    have hmono : acc.2 ≤ (modeStep xs acc u).2 := by
      by_cases hlt : acc.2 < xs.count u
      · simp only [modeStep, if_pos hlt]
        exact le_of_lt hlt
      · simp only [modeStep, if_neg hlt]
        exact le_refl _
    have hcu : xs.count u ≤ (modeStep xs acc u).2 := by
      by_cases hlt : acc.2 < xs.count u
      · simp only [modeStep, if_pos hlt]
        exact le_refl _
      · simp only [modeStep, if_neg hlt]
        exact le_of_not_lt hlt
    obtain ⟨h1, h2, h3⟩ := ih (modeStep xs acc u)
      (fun v hv => hmem v (List.mem_cons_of_mem u hv)) hstep
    refine ⟨h1, le_trans hmono h2, ?_⟩
    intro v hv
    rcases List.mem_cons.mp hv with rfl | hv2
    · exact le_trans hcu h2
    · exact h3 v hv2

/-- The function `scipyMode` really is a mode: it belongs to the list and no value occurs
more often. -/
theorem scipyMode_spec (xs : List ℚ) (hne : xs ≠ []) :
    scipyMode xs ∈ xs ∧
      ∀ v, v ∈ xs → xs.count v ≤ xs.count (scipyMode xs) := by
  obtain ⟨x, xs2, rfl⟩ := List.exists_cons_of_ne_nil hne
  obtain ⟨h1, _h2, h3⟩ := modeFold_spec (x :: xs2) (npUnique (x :: xs2)) (0, 0)
    (fun v hv => (npUnique_mem _ v).mp hv) (Or.inl rfl)
  have hx : x ∈ npUnique (x :: xs2) :=
    (npUnique_mem _ x).mpr (List.mem_cons_self x xs2)
  have hpos : 0 < ((npUnique (x :: xs2)).foldl (modeStep (x :: xs2)) (0, 0)).2 :=
    lt_of_lt_of_le (List.count_pos_iff_mem.mpr (List.mem_cons_self x xs2)) (h3 x hx)
  rcases h1 with h0 | ⟨hm, hc⟩
  · rw [h0] at hpos
    exact absurd hpos (lt_irrefl 0)
  · refine ⟨hm, ?_⟩
    intro v hv
    have := h3 v ((npUnique_mem _ v).mpr hv)
    rw [hc] at this
    exact this

/-- C2 (amended): in independent mode every trial is predicted with every
fold's classifier and `_predicter` aggregates across folds: componentwise
`scipy.stats.mode` for discrete 'predict' — a genuine mode: a maximal-count
value among the per-fold predictions — and the arithmetic fold mean
(`foldMean`) for 'distance'/'proba', provided the output width is not
exactly 2; with exactly 2 columns the binary-collapse step crashes instead
(see `c2_binary_columns_no_aggregate`). -/
theorem c2_independent_fold_aggregate {τ : Type} (x0 : τ) (Xr : List τ)
    (e0 e1 : Clf τ) (es : List (Clf τ)) :
    (predicter (x0 :: Xr) (e0 :: e1 :: es) .predict =
      .ok ((x0 :: Xr).map fun x =>
        [scipyMode ((e0 :: e1 :: es).map fun e => e.predict x)])) ∧
    (∀ x : τ,
      scipyMode ((e0 :: e1 :: es).map fun e => e.predict x) ∈
        ((e0 :: e1 :: es).map fun e => e.predict x) ∧
      ∀ v, v ∈ ((e0 :: e1 :: es).map fun e => e.predict x) →
        ((e0 :: e1 :: es).map fun e => e.predict x).count v ≤
          ((e0 :: e1 :: es).map fun e => e.predict x).count
            (scipyMode ((e0 :: e1 :: es).map fun e => e.predict x))) ∧
    (∀ pt n, (pt = .distance ∨ pt = .proba) → n ≠ 2 →
      (∀ e, e ∈ e0 :: e1 :: es → ∀ x, x ∈ x0 :: Xr →
        (predRow e pt x).length = n) →
      predicter (x0 :: Xr) (e0 :: e1 :: es) pt =
        .ok ((x0 :: Xr).map fun x =>
          (List.range n).map fun c => foldMean (e0 :: e1 :: es) pt x c)) := by
  refine ⟨rfl, ?_, ?_⟩
  · intro x
    exact scipyMode_spec _ (by simp)
  · intro pt n hpt hn2 huni
    have hn0 : (predRow e0 pt x0).length = n :=
      huni e0 (List.mem_cons_self _ _) x0 (List.mem_cons_self _ _)
    have hall : ((e0 :: e1 :: es).all fun e =>
        (x0 :: Xr).all fun x => (predRow e pt x).length == n) = true := by
      rw [List.all_eq_true]
      intro e he
      rw [List.all_eq_true]
      intro x hx
      exact beq_iff_eq.mpr (huni e he x hx)
    rcases hpt with rfl | rfl
    · simp only [predicter, exceptBind_ok_left, hn0, hall]
      simp [hn2]
    · simp only [predicter, exceptBind_ok_left, hn0, hall]
      simp [hn2]

/-- Refutation of C2 as universally stated: with two folds and probabilistic
2-column output, `_predicter` raises an IndexError (np.mean removed the fold
axis and the binary-collapse step over-indexes the 2-D array), so no
fold-mean prediction is produced at all. -/
theorem c2_binary_columns_no_aggregate :
    predicter [(7 : ℚ)] [estId, estId] .proba = .error .indexError := rfl

/-- Three-column probabilistic classifier for concrete instantiations. -/
def est3 : Clf ℚ :=
  { predict := fun x => x
    decision_function := fun _ => [1, 2, 3]
    predict_proba := fun _ => [1, 2, 3] }

/-- Closed instantiation of `c2_independent_fold_aggregate`: two folds with
three-column probabilistic output average fold-wise. -/
theorem c2_independent_fold_aggregate_witness :
    predicter [(3 : ℚ)] [est3, est3] .proba =
      .ok ([(3 : ℚ)].map fun x =>
        (List.range 3).map fun c => foldMean [est3, est3] .proba x c) :=
  (c2_independent_fold_aggregate (3 : ℚ) [] est3 est3 []).2.2 .proba 3
    (Or.inr rfl) (by decide)
    (by
      intro e he x hx
      rcases List.mem_cons.mp he with rfl | he2
      · rfl
      · rcases List.mem_cons.mp he2 with rfl | he3
        · rfl
        · exact absurd he3 (List.not_mem_nil e))

/-- C3 (code bug, evaluated at the failing input): with 3 time samples and a
requested window length of 4 seconds (6 sample indices at the computed
sampling step), `_sliding_window` returns — without any error — the single
window range(0, 6), whose indices run past the 3 available samples
(start + length = 6 > n_samples = 3), instead of rejecting the oversized
length as a configuration error. -/
theorem c3_oversized_length_window_out_of_bounds :
    slidingWindow [0, 1, 2] { length := some 4 } =
      .ok ([[0, 1, 2, 3, 4, 5]],
        { slices := none, start := some 0, stop := some 2,
          step := some (2/3), length := some 4 }) ∧
    ¬ (([0, 1, 2, 3, 4, 5] : List ℕ).all fun i => i < 3) := by
  constructor
  · norm_num [slidingWindow, findTime, swLoop, pyRange, List.findIdx?, round_eq,
      Bind.bind, Except.bind, List.range', Int.toNat]
  · decide

/-- C8 (code bug, evaluated at the failing input): a requested start time of
-999 s, far before the first sample, is silently clipped — `find_time`
returns index 0 and the planner produces the full window list with no
error — instead of raising a configuration error. -/
theorem c8_early_start_silently_clipped :
    slidingWindow [0, 1, 2] { start := some (-999) } =
      .ok ([[0], [1], [2]],
        { slices := none, start := some (-999), stop := some 2,
          step := some (2/3), length := some (2/3) }) := by
  norm_num [slidingWindow, findTime, swLoop, pyRange, List.findIdx?, round_eq,
    Bind.bind, Except.bind, List.range', Int.toNat]

/-- C4: requesting 'diagonal' testing yields exactly one test window per
training window, and for every index i that single test window is training
window i itself. -/
theorem c4_diagonal_test_windows (tr : List (List ℕ)) :
    (diagonalTestSlices tr).length = tr.length ∧
    ∀ i : ℕ, (diagonalTestSlices tr).get? i = (tr.get? i).map fun s => [s] := by
  constructor
  · simp [diagonalTestSlices]
  · intro i
    simp [diagonalTestSlices, List.get?_map]

/-- C5 (code bug, evaluated at the failing input): with a single classifier
(matched-mode call) a 2-column margin or probabilistic output collapses to
its positive-class (second) column, output dimension 1 — but with two fold
classifiers (independent mode) the same input makes `_predicter` raise an
IndexError, because np.mean has already removed the fold axis when
`y_pred[:, 1, :]` runs. -/
theorem c5_binary_collapse_vs_crash :
    predicter [4] [estA] .proba = .ok [[3]] ∧
    predicter [4] [estA] .distance = .ok [[1]] ∧
    predicter [4] [estA, estB] .proba = .error .indexError ∧
    predicter [4] [estA, estB] .distance = .error .indexError :=
  ⟨rfl, rfl, rfl, rfl⟩

def epochsTiny : Epochs :=
  { data := [[[1]]], events := [5], times := [0] }

/-- C7 (code bug): predict on a never-fitted object does fail, but through
`assert(hasattr(self, 'estimators'))` — an AssertionError — not with the
RuntimeError that the claim prescribes. -/
theorem c7_predict_unfit_assertion_not_runtime :
    gatPredict { cv := [] } epochsTiny false (.dict {}) .predict 0 =
      .error .assertionError ∧
    PyErr.assertionError ≠ PyErr.runtimeError :=
  ⟨rfl, by decide⟩

/-- C6 (amended): a fold with an empty training-index set makes fit raise —
the external estimator rejects the empty training slice — but not before
fitting work was attempted: every fold before it has already been fit (here
exactly one completed fit).  No grid is returned, and
`GeneralizationAcrossTime.fit` assigns `self.estimators` only after
`_fit_slices` returns, so no partial grid is exposed. -/
theorem c6_empty_train_fold_raises_after_work {κ : Type} (fitF : FitFn κ)
    (Xchunk : List (List (List ℚ))) (y : List ℚ) (ts : List ℕ)
    (Xf : List (List ℚ)) (tr1 te1 te2 : List ℕ) (e1 : κ) (err : PyErr)
    (hslice : sliceFlatten Xchunk
      (renumber (npUnique ([ts] : List (List ℕ)).flatten) ts) = .ok Xf)
    (hfold1 : (do
        let xtr ← selectIdx Xf tr1
        let ytr ← selectIdx y tr1
        fitF xtr ytr) = .ok e1)
    (hempty : fitF [] [] = .error err) :
    fitSlices fitF Xchunk y [ts] [(tr1, te1), ([], te2)] = (.error err, 1) := by
  unfold fitSlices
  simp only [fitSlicesGo, hslice]
  simp only [fitFolds, hfold1]
  have hsel1 : selectIdx Xf ([] : List ℕ) = .ok [] := rfl
  have hsel2 : selectIdx y ([] : List ℕ) = .ok [] := rfl
  simp only [hsel1, hsel2, exceptBind_ok_left, hempty]

def fitCount : FitFn ℕ :=
  fun xtr _ => if xtr.isEmpty then .error .valueError else .ok xtr.length

/-- Closed instantiation of `c6_empty_train_fold_raises_after_work`. -/
theorem c6_empty_train_fold_raises_after_work_witness :
    fitSlices fitCount [[[1]], [[2]]] [0, 1] [[0]] [([0], [1]), ([], [0])] =
      (.error .valueError, 1) :=
  c6_empty_train_fold_raises_after_work fitCount [[[1]], [[2]]] [0, 1] [0]
    [[1], [2]] [0] [1] [0] 1 .valueError rfl rfl rfl

/-- Refutation of C6 as stated: the empty-train-fold error is not raised
before fitting work is attempted — with the empty fold in second position
one classifier fit has already completed when the error occurs. -/
theorem c6_fit_work_precedes_error :
    fitSlices fitCount [[[1]], [[2]], [[3]]] [0, 1, 0] [[0]]
      [([0, 1], [2]), ([], [0])] = (.error .valueError, 1) ∧
    (1 : ℕ) ≠ 0 :=
  ⟨rfl, by decide⟩

theorem mapM_col_ok (ypred : List (List ℚ)) (c : ℕ)
    (h : ∀ r, r ∈ ypred → c < r.length) :
    ypred.mapM (fun r => nthE r c) = .ok (ypred.map (fun r => r.getD c 0)) := by
  induction ypred with
  | nil => rfl
  | cons r rows ih =>
    rw [← List.mapM'_eq_mapM]
    simp only [List.mapM']
    have hlt := h r (List.mem_cons_self r rows)
    have hr : nthE r c = .ok (r.getD c 0) := by
      unfold nthE
      cases hg : r.get? c with
      | none => exact absurd (List.get?_eq_none.mp hg) (not_le.mpr hlt)
      | some v =>
        have hv : r.getD c 0 = v := by
          rw [List.getD_eq_get?, hg]
          rfl
        rw [hv]
    rw [hr, exceptBind_ok_left, List.mapM'_eq_mapM,
      ih (fun q hq => h q (List.mem_cons_of_mem _ hq))]
    rfl

theorem foldlM_cons_eq {α σ : Type} (f : σ → α → Except PyErr σ) (b : σ)
    (a : α) (l : List α) :
    (a :: l).foldlM f b = f b a >>= fun b2 => l.foldlM f b2 := rfl

theorem scorerFold_pure (f : List ℚ → List ℚ → ℚ) (y : List ℚ)
    (ypred : List (List ℚ)) (w : ℕ) (hrect : ∀ r, r ∈ ypred → w ≤ r.length) :
    ∀ (L : List (ℕ × ℚ)) (acc : ℚ), (∀ p, p ∈ L → p.1 < w) →
      (L.foldlM (fun acc p => do
          let col ← ypred.mapM (fun r => nthE r p.1)
          let s ← (fun a b => (Except.ok (f a b) : Except PyErr ℚ))
            (binarize y p.2) col
          pure (acc + s)) acc) =
      .ok (acc + (L.map (fun p =>
        f (binarize y p.2) (ypred.map (fun r => r.getD p.1 0)))).sum) := by
  intro L
  induction L with
  | nil =>
    intro acc _
    simp [List.foldlM, pure, Except.pure]
  | cons p L ih =>
    intro acc hp
    have hcol := mapM_col_ok ypred p.1
      (fun r hr => lt_of_lt_of_le (hp p (List.mem_cons_self _ _)) (hrect r hr))
    rw [foldlM_cons_eq]
    have hbody : (do
        let col ← ypred.mapM (fun r => nthE r p.1)
        let s ← (fun a b => (Except.ok (f a b) : Except PyErr ℚ))
          (binarize y p.2) col
        pure (acc + s)) =
        (.ok (acc + f (binarize y p.2) (ypred.map fun r => r.getD p.1 0)) :
          Except PyErr ℚ) := by
      rw [hcol]; rfl
    rw [hbody, exceptBind_ok_left]
    rw [ih _ (fun q hq => hp q (List.mem_cons_of_mem _ hq))]
    rw [List.map_cons, List.sum_cons, add_assoc]

/-- C9: when the prediction width equals the number of distinct classes (and
is not 1), the `_scorer` cell value is the arithmetic mean over the classes
of the scorer applied to the binarised truth `y == c` and class c's own
prediction column, the classes enumerated in np.unique order — which is
sorted, duplicate-free and holds exactly the values occurring in y. -/
theorem c9_multiclass_one_vs_rest (y : List ℚ) (ypred : List (List ℚ))
    (f : List ℚ → List ℚ → ℚ)
    (hw : (ypred.headD []).length = (npUnique y).length)
    (h1 : (npUnique y).length ≠ 1)
    (hrect : ∀ r, r ∈ ypred → r.length = (npUnique y).length) :
    scorerCell y ypred (fun a b => .ok (f a b)) =
      .ok (((npUnique y).enum.map (fun p =>
          f (binarize y p.2) (ypred.map (fun r => r.getD p.1 0)))).sum /
        ((npUnique y).length : ℚ)) ∧
    (npUnique y).Sorted (fun a b => a ≤ b) ∧
    (npUnique y).Nodup ∧
    (∀ v, v ∈ npUnique y ↔ v ∈ y) := by
  refine ⟨?_, List.sorted_insertionSort _ _, ?_, fun v => npUnique_mem y v⟩
  · unfold scorerCell
    rw [if_neg (by rw [hw]; exact h1)]
    have henum : ∀ p, p ∈ (npUnique y).enum → p.1 < (npUnique y).length := by
      intro p hp
      obtain ⟨hlt, _⟩ := List.get?_eq_some.mp (mem_enum_get? hp)
      exact hlt
    rw [scorerFold_pure f y ypred (npUnique y).length
      (fun r hr => le_of_eq (hrect r hr).symm) (npUnique y).enum 0 henum]
    rw [exceptBind_ok_left, zero_add]
  · exact ((List.perm_insertionSort _ _).nodup_iff).mpr (List.nodup_dedup _)

/-- Match-counting scorer capability used in concrete instantiations. -/
def matchCount : List ℚ → List ℚ → ℚ := fun a b =>
  ((a.zip b).map (fun p => if p.1 = p.2 then (1 : ℚ) else 0)).sum

/-- Closed instantiation of `c9_multiclass_one_vs_rest` on a 2-class
problem with a 2-column prediction matrix. -/
theorem c9_multiclass_one_vs_rest_witness :
    scorerCell [0, 1] [[1, 0], [0, 1]] (fun a b => .ok (matchCount a b)) =
      .ok (((npUnique [0, 1]).enum.map (fun p =>
          matchCount (binarize [0, 1] p.2)
            ([[(1 : ℚ), 0], [0, 1]].map (fun r => r.getD p.1 0)))).sum /
        ((npUnique [0, 1]).length : ℚ)) ∧
    (npUnique [(0 : ℚ), 1]).Sorted (fun a b => a ≤ b) ∧
    (npUnique [(0 : ℚ), 1]).Nodup ∧
    (∀ v, v ∈ npUnique [(0 : ℚ), 1] ↔ v ∈ [(0 : ℚ), 1]) :=
  c9_multiclass_one_vs_rest [0, 1] [[1, 0], [0, 1]] matchCount
    (by decide) (by decide) (by decide)

theorem formatData_none_events (ep : Epochs) (picks : Option (List ℕ))
    (X : List (List (List ℚ))) (y : List ℚ)
    (h : formatData ep none picks = .ok (X, y)) : y = ep.events := by
  unfold formatData at h
  cases picks with
  | none =>
    simp only [Option.getD, exceptBind_ok_left] at h
    split at h
    · exact (congrArg Prod.snd (Except.ok.inj h)).symm
    · exact absurd h (by simp)
  | some ps =>
    simp only [Option.getD] at h
    rw [exceptBind_ok] at h
    obtain ⟨X2, _hX2, hif⟩ := h
    split at hif
    · exact (congrArg Prod.snd (Except.ok.inj hif)).symm
    · exact absurd hif (by simp)

/-- After a successful predict, `self.y_true` holds the fit-time labels in
matched mode and the labels derived from the passed epochs in independent
mode. -/
theorem gatPredict_y_true (g : GAT) (ep : Epochs) (ind : Bool)
    (tt : TestTimesArg) (pt : PredictType) (junk : ℚ) (g1 : GAT)
    (yt : List ℚ) (hyt : g.y_train = some yt)
    (h : gatPredict g ep ind tt pt junk = .ok g1) :
    g1.y_true = some (if ind then ep.events else yt) ∧
    g1.test_slices.isSome ∧ g1.y_pred.isSome := by
  unfold gatPredict at h
  rw [exceptBind_ok] at h
  obtain ⟨⟨X, y⟩, hXy, h⟩ := h
  have hy : y = ep.events := formatData_none_events ep g.picks X y hXy
  cases hest : g.estimators with
  | none => rw [hest] at h; exact absurd h (by simp)
  | some ests =>
    rw [hest] at h
    rw [exceptBind_ok] at h
    obtain ⟨yTrue, hyTrue, h⟩ := h
    rw [exceptBind_ok] at h
    obtain ⟨trainSlices, _htr, h⟩ := h
    rw [exceptBind_ok] at h
    obtain ⟨ttoF, _httoF, h⟩ := h
    rw [exceptBind_ok] at h
    obtain ⟨tts, _htts, h⟩ := h
    rw [exceptBind_ok] at h
    obtain ⟨packed, _hpacked, h⟩ := h
    have hg1 := (Except.ok.inj h).symm
    have hval : yTrue = if ind then ep.events else yt := by
      cases ind with
      | false =>
        rw [if_neg (by decide)]
        simp only [Bool.false_eq_true] at hyTrue  -- hmm
        rw [hyt] at hyTrue
        exact (Except.ok.inj hyTrue).symm ▸ rfl
      | true =>
        simp only [if_pos rfl] at hyTrue ⊢
        rw [hy] at hyTrue
        exact (Except.ok.inj hyTrue).symm ▸ rfl
    subst hg1
    exact ⟨by simp [hval], by simp, by simp⟩

/-- C10: score with y=None reruns predict with the same `independent` flag
and compares the predictions against `self.y_true`: in matched mode the
labels captured by the last fit (`self.y_train`), and only in independent
mode the labels derived from the epochs passed in.  Every score cell is
`_scorer` applied to exactly those labels. -/
theorem c10_score_label_source (g : GAT) (ep : Epochs)
    (scorer? : Option ScorerFn) (ind : Bool) (tt : TestTimesArg)
    (pt : PredictType) (junk : ℚ) (yt : List ℚ) (g2 : GAT)
    (hyt : g.y_train = some yt)
    (hrun : gatScore g ep none scorer? ind tt pt junk = .ok g2) :
    g2.y_true = some (if ind then ep.events else yt) ∧
    ∃ tsl ypred sc, g2.test_slices = some tsl ∧ g2.y_pred = some ypred ∧
      g2.scores = some sc ∧
      ∀ t row, tsl.get? t = some row → ∀ u, u < row.length →
        ∃ rowY cell srow s,
          ypred.get? t = some rowY ∧ rowY.get? u = some cell ∧
          sc.get? t = some srow ∧ srow.get? u = some s ∧
          scorerCell (if ind then ep.events else yt) cell
            (scorer?.getD
              (if pt = .predict then accuracyScore else rocAucScore)) =
            .ok s := by
  unfold gatScore at hrun
  rw [exceptBind_ok] at hrun
  obtain ⟨g1, hg1, hrun⟩ := hrun
  obtain ⟨hytrue, hts, hyp⟩ := gatPredict_y_true g ep ind tt pt junk g1 yt hyt hg1
  obtain ⟨tsl, htsl⟩ := Option.isSome_iff_exists.mp hts
  obtain ⟨ypredv, hypredv⟩ := Option.isSome_iff_exists.mp hyp
  rw [hytrue, htsl, hypredv] at hrun
  simp only [Option.getD_some, Option.getD_none, exceptBind_ok_left] at hrun
  rw [exceptBind_ok] at hrun
  obtain ⟨sc, hsc, hfinal⟩ := hrun
  have hg2 := (Except.ok.inj hfinal).symm
  subst hg2
  refine ⟨by simp, tsl, ypredv, sc, by simp [htsl], by simp [hypredv], by simp, ?_⟩
  intro t row hrow u hu
  have henum : tsl.enum.get? t = some (t, row) := by
    rw [List.get?_enum, hrow]
    rfl
  obtain ⟨_, hget⟩ := mapM_ok_get _ tsl.enum sc hsc
  obtain ⟨srow, hbody, hsrow⟩ := hget t (t, row) henum
  rw [exceptBind_ok] at hbody
  obtain ⟨rowY, hrowY, hinner⟩ := hbody
  obtain ⟨_, hgetin⟩ := mapM_ok_get _ (List.range row.length) srow hinner
  obtain ⟨s, hcellrun, hsu⟩ := hgetin u u (List.get?_range hu)
  rw [exceptBind_ok] at hcellrun
  obtain ⟨cell, hcell, hscell⟩ := hcellrun
  exact ⟨rowY, cell, srow, s, (nthE_ok_iff _ _ _).mp hrowY,
    (nthE_ok_iff _ _ _).mp hcell, hsrow, hsu, hscell⟩

/-- Constant classifier capability used in the end-to-end instantiation. -/
def estK : Clf (List ℚ) :=
  { predict := fun _ => 1
    decision_function := fun _ => [1, 1]
    predict_proba := fun _ => [1, 1] }

/-- Constant scorer capability used in the end-to-end instantiation. -/
def constScorer : ScorerFn := fun _ _ => .ok 1

def epochsW : Epochs :=
  { data := [[[1, 2]], [[3, 4]]], events := [1, 2], times := [0, 2] }

/-- A fitted GeneralizationAcrossTime state: one fold, two one-sample
training windows, fit-time labels [1, 1]. -/
def gatW : GAT :=
  { cv := [([0, 1], [0, 1])]
    picks := none
    train_times := {}
    y_train := some [1, 1]
    estimators := some [[estK], [estK]]
    train_slices := some [[0], [1]] }

/-- The state produced by running score (diagonal testing, matched mode,
constant scorer) on `gatW` and `epochsW`. -/
def g2W : GAT :=
  { cv := [([0, 1], [0, 1])]
    picks := none
    train_times := {}
    y_train := some [1, 1]
    estimators := some [[estK], [estK]]
    train_slices := some [[0], [1]]
    train_times_s := none
    independent := some false
    y_true := some [1, 1]
    predict_type := some .predict
    test_slices := some [[[0]], [[1]]]
    test_times_s := some [[0], [2]]
    test_times_opts := some { slices := some [[[0]], [[1]]] }
    y_pred := some [[[[1], [1]]], [[[1], [1]]]]
    scorer := some constScorer
    scores := some [[1], [1]] }

/-- Closed instantiation of `c10_score_label_source`: a full
fit-state → predict → score run in matched mode scores against the
fit-time labels [1, 1], not the epochs' event labels [1, 2]. -/
theorem c10_score_label_source_witness :
    g2W.y_true = some (if false then epochsW.events else [1, 1]) ∧
    ∃ tsl ypred sc, g2W.test_slices = some tsl ∧ g2W.y_pred = some ypred ∧
      g2W.scores = some sc ∧
      ∀ t row, tsl.get? t = some row → ∀ u, u < row.length →
        ∃ rowY cell srow s,
          ypred.get? t = some rowY ∧ rowY.get? u = some cell ∧
          sc.get? t = some srow ∧ srow.get? u = some s ∧
          scorerCell (if false then epochsW.events else [1, 1]) cell
            ((some constScorer).getD
              (if PredictType.predict = .predict then accuracyScore
               else rocAucScore)) = .ok s :=
  c10_score_label_source gatW epochsW (some constScorer) false .diagonal
    .predict 0 [1, 1] g2W rfl rfl
